import Mathlib

/-!
Verification of the review normalization and classification pipeline of the
verbatimai backend against its specification.

The definitions below are a shallow embedding of
`backend/app/services/ai_service.py` and
`backend/app/services/universal_review_importer.py`.
Python floats are modelled as rationals, Python `None`/missing values as
`Option`, Python exceptions as `Except String`, and the (hash-order
dependent) iteration of a Python `set` is modelled by an abstract
enumeration function that is only known to list each element exactly once.
-/

namespace VerbatimAI

/-- Python's substring test `a in b` on lists of characters. -/
def listInfix (a : List Char) : List Char → Bool
  | [] => a.isEmpty
  | c :: t => a.isPrefixOf (c :: t) || listInfix a t

/-- Python's substring test `a in b` for strings. -/
def pyIn (a b : String) : Bool := listInfix a.toList b.toList

/-- Python truthiness of a string: non-empty. -/
def pyTruthy (s : String) : Bool := s ≠ ""

/-- Python `str.lower()` (ASCII, which covers all data in this code base). -/
def pyLower (s : String) : String := ⟨s.data.map Char.toLower⟩

/-- Python `str.strip()`: remove leading and trailing whitespace. -/
def pyStrip (s : String) : String :=
  ⟨((s.data.dropWhile Char.isWhitespace).reverse.dropWhile
      Char.isWhitespace).reverse⟩

/-! ## Topic taxonomy (`STANDARD_TOPICS`, ai_service.py lines 10-43) -/

structure TopicCategory where
  id : String
  name : String
  keywords : List String
deriving Repr, DecidableEq

/-- `STANDARD_TOPICS` from ai_service.py, in dict insertion order. -/
def STANDARD_TOPICS : List TopicCategory :=
  [ ⟨"product_quality", "Product Quality",
      ["product", "quality", "item", "goods", "merchandise", "materials",
       "build", "craftsmanship", "durability", "defect", "broken",
       "poor quality", "excellent quality", "high quality", "low quality"]⟩,
    ⟨"customer_service", "Customer Service",
      ["service", "staff", "employee", "support", "help", "representative",
       "team", "assistance", "rude", "helpful", "friendly", "professional",
       "attitude"]⟩,
    ⟨"shipping_delivery", "Shipping & Delivery",
      ["shipping", "delivery", "shipping speed", "fast delivery",
       "slow delivery", "delayed", "on time", "package", "packaging",
       "arrived", "logistics"]⟩,
    ⟨"pricing_value", "Pricing & Value",
      ["price", "cost", "expensive", "cheap", "affordable", "value", "money",
       "pricing", "overpriced", "reasonable", "deal", "discount"]⟩,
    ⟨"user_experience", "User Experience",
      ["easy", "difficult", "user friendly", "confusing", "intuitive",
       "complicated", "simple", "experience", "interface", "usability"]⟩,
    ⟨"payment_billing", "Payment & Billing",
      ["payment", "billing", "charge", "credit card", "checkout", "invoice",
       "subscription", "refund", "transaction"]⟩,
    ⟨"website_app", "Website & App",
      ["website", "app", "application", "mobile", "browser", "online",
       "platform", "navigation", "loading", "crashes"]⟩,
    ⟨"communication", "Communication",
      ["communication", "response", "email", "phone", "chat", "contact",
       "reply", "information", "updates", "notification"]⟩ ]

/-- The eight canonical topic names of the taxonomy. -/
def canonicalTopicNames : List String := STANDARD_TOPICS.map (·.name)

/-- Python dict assignment `m[k] = v`: update in place (keeping the key's
first-insertion position) or append. -/
def updateAssoc (m : List (String × String)) (k v : String) :
    List (String × String) :=
  if m.any (·.1 = k) then m.map (fun p => if p.1 = k then (k, v) else p)
  else m ++ [(k, v)]

/-- `TopicNormalizer._build_topic_map` (ai_service.py lines 51-63): an
inverted index from each lowercased keyword to its canonical topic name,
in dict insertion order. -/
def buildTopicMap : List (String × String) :=
  STANDARD_TOPICS.foldl
    (fun m t => t.keywords.foldl (fun m kw => updateAssoc m (pyLower kw) t.name) m)
    []

/-- The inverted keyword index, written out literally (the keywords are
pairwise distinct and already lowercase, so the build fold appends them in
order; `topic_map_eq_build` below checks this against `buildTopicMap`). -/
def topic_map : List (String × String) :=
  (["product", "quality", "item", "goods", "merchandise", "materials",
    "build", "craftsmanship", "durability", "defect", "broken",
    "poor quality", "excellent quality", "high quality", "low quality"].map
      fun k => (k, "Product Quality")) ++
  (["service", "staff", "employee", "support", "help", "representative",
    "team", "assistance", "rude", "helpful", "friendly", "professional",
    "attitude"].map fun k => (k, "Customer Service")) ++
  (["shipping", "delivery", "shipping speed", "fast delivery",
    "slow delivery", "delayed", "on time", "package", "packaging",
    "arrived", "logistics"].map fun k => (k, "Shipping & Delivery")) ++
  (["price", "cost", "expensive", "cheap", "affordable", "value", "money",
    "pricing", "overpriced", "reasonable", "deal", "discount"].map
      fun k => (k, "Pricing & Value")) ++
  (["easy", "difficult", "user friendly", "confusing", "intuitive",
    "complicated", "simple", "experience", "interface", "usability"].map
      fun k => (k, "User Experience")) ++
  (["payment", "billing", "charge", "credit card", "checkout", "invoice",
    "subscription", "refund", "transaction"].map
      fun k => (k, "Payment & Billing")) ++
  (["website", "app", "application", "mobile", "browser", "online",
    "platform", "navigation", "loading", "crashes"].map
      fun k => (k, "Website & App")) ++
  (["communication", "response", "email", "phone", "chat", "contact",
    "reply", "information", "updates", "notification"].map
      fun k => (k, "Communication"))

/-- Python dict lookup `raw in topic_map` / `topic_map[raw]`. -/
def topicMapLookup (k : String) : Option String :=
  (topic_map.find? (·.1 = k)).map (·.2)

/-- `TopicNormalizer._fuzzy_match_topic` (ai_service.py lines 96-119). -/
def fuzzy_match_topic (raw : String) : Option String :=
  let raw := pyLower raw
  if (["bad", "good", "poor", "excellent", "high", "low"].any
        (fun w => pyIn w raw)) &&
     (["product", "quality", "item"].any (fun w => pyIn w raw)) then
    some "Product Quality"
  else if (["bad", "good", "poor", "excellent", "great", "terrible"].any
        (fun w => pyIn w raw)) &&
     (["service", "staff", "support"].any (fun w => pyIn w raw)) then
    some "Customer Service"
  else if (["fast", "slow", "quick", "delayed", "late"].any
        (fun w => pyIn w raw)) &&
     (["shipping", "delivery", "arrived"].any (fun w => pyIn w raw)) then
    some "Shipping & Delivery"
  else if ["expensive", "cheap", "affordable", "overpriced"].any
        (fun w => pyIn w raw) then
    some "Pricing & Value"
  else none

/-- One iteration of the loop body of `TopicNormalizer.normalize_topics`
(ai_service.py lines 69-92): the canonical topic (if any) a single raw
phrase is mapped to.  Blank phrases are skipped; then exact index lookup;
then the first (in index insertion order) keyword related by substring
containment in either direction; then the fuzzy rules. -/
def normalizeOne (raw : String) : Option String :=
  if !pyTruthy raw || !pyTruthy (pyStrip raw) then none
  else
    let clean := pyStrip (pyLower raw)
    match topicMapLookup clean with
    | some t => some t
    | none =>
      match topic_map.find? (fun p => pyIn p.1 clean || pyIn clean p.1) with
      | some p => some p.2
      | none => fuzzy_match_topic clean

/-- The *set* accumulated by `TopicNormalizer.normalize_topics`
(ai_service.py lines 65-94).  The Python code returns `list(normalized)`
where `normalized` is a `set`; the order of that list is the set's
iteration order, which is not specified, so only the underlying finite
set is modelled here. -/
def normalizedSet (raws : List String) : Finset String :=
  (raws.filterMap normalizeOne).toFinset

/-- An enumeration of finite string sets, standing for CPython's
`list(s)` on a `set`: it lists every element of the set exactly once, in
an order about which nothing further is assumed. -/
structure SetEnum where
  f : Finset String → List String
  nodup : ∀ s, (f s).Nodup
  complete : ∀ s, (f s).toFinset = s

/-- A concrete enumeration (used to instantiate witnesses): sorted order. -/
def sortEnum : SetEnum where
  f s := s.sort (· ≤ ·)
  nodup s := s.sort_nodup (· ≤ ·)
  complete s := s.sort_toFinset (· ≤ ·)

/-- `TopicNormalizer.normalize_topics` (ai_service.py lines 65-94),
parameterized by the set-enumeration order `E`. -/
def normalize_topics (E : SetEnum) (raws : List String) : List String :=
  E.f (normalizedSet raws)

set_option maxRecDepth 1000000 in
/-- The literal keyword index agrees with the build fold translated from
`TopicNormalizer._build_topic_map`. -/
theorem topic_map_eq_build : topic_map = buildTopicMap := by decide

/-! ## Sentiment/topic classifier (`ai_service.py`)

The remote backends are network calls; their observable behaviour at the
classifier boundary is a value of `Except String RawAI`: either an
exception with a message (missing key, auth failure, rate limit, 5xx,
timeout, connection error, malformed/empty payload) or a parsed response
payload as produced by `_extract_json_from_text` (a dict that may carry a
sentiment and a topics value of any shape). -/

def valid_sentiments : List String := ["positive", "negative", "neutral"]

/-- An analysis result dict.  Absent optional keys are `none`/`false`. -/
structure AIResult where
  sentiment : String
  topics : List String
  method : Option String := none
  errorMsg : Option String := none
  ai_error : Option String := none
  fallback_used : Bool := false
  sentiment_adjusted : Bool := false
  original_ai_sentiment : Option String := none
deriving Repr, DecidableEq

/-- The `topics` value of a parsed remote payload: a list of strings, a
scalar (modelled by its string form), or absent/null. -/
inductive PyTopics where
  | tlist (xs : List String)
  | tstr (s : String)
  | absent
deriving Repr, DecidableEq

/-- A parsed remote payload (output shape of `_extract_json_from_text`).
`sentiment = none` models a missing or null key. -/
structure RawAI where
  sentiment : Option String
  topics : PyTopics
deriving Repr, DecidableEq

/-- The rating thresholds used in both `analyze_local` (lines 449-456) and
`_adjust_sentiment_with_rating` (lines 605-611): ≤ 2 negative, = 3
neutral, otherwise positive. -/
def ratingSentiment (r : ℤ) : String :=
  if r ≤ 2 then "negative" else if r = 3 then "neutral" else "positive"

/-- The cleaning loop of `_validate_ai_result` (lines 578-585): keep
truthy entries whose stripped form is non-empty and at most 50 characters,
and stop as soon as three entries have been kept. -/
def cleanTopicsLoop : List String → List String → List String
  | acc, [] => acc
  | acc, t :: rest =>
    let acc' :=
      if pyTruthy t ∧ pyTruthy (pyStrip t) ∧ (pyStrip t).length ≤ 50 then
        acc ++ [pyStrip t]
      else acc
    if 3 ≤ acc'.length then acc' else cleanTopicsLoop acc' rest

/-- The `if validated_result.get("topics"): … normalize` pattern used at
ai_service.py lines 588-590 and 283-285: normalize when non-empty. -/
def normalizeIfNonempty (E : SetEnum) (l : List String) : List String :=
  if l ≠ [] then normalize_topics E l else l

/-- `_validate_ai_result` (ai_service.py lines 553-595). -/
def validate_ai_result (E : SetEnum) (raw : RawAI) : AIResult :=
  let s0 := raw.sentiment.getD "neutral"
  let s := if s0 ∈ valid_sentiments then s0 else "neutral"
  let topics : List String :=
    match raw.topics with
    | .tlist xs => xs
    | .tstr t => if pyTruthy t then [t] else []
    | .absent => []
  let clean := cleanTopicsLoop [] topics
  { sentiment := s, topics := normalizeIfNonempty E clean }

/-- `analyze_with_claude` (ai_service.py lines 198-301) at the classifier
boundary: a blank API key raises before any network traffic; otherwise the
network interaction either raises (re-raised unchanged by the handlers at
lines 290-301) or yields a parsed payload which is validated and whose
topics are normalized (lines 277-288).  Text truncation (lines 212-215)
only affects the outgoing prompt, not the result shape. -/
def analyze_with_claude (E : SetEnum) (api_key : String)
    (net : Except String RawAI) (text : String) : Except String AIResult :=
  if !pyTruthy api_key || !pyTruthy (pyStrip api_key) then
    .error "Claude API key not configured"
  else if !pyTruthy text || (pyStrip text).length = 0 then
    .error "Empty text provided for analysis"
  else
    match net with
    | .error e => .error e
    | .ok raw =>
      let v := validate_ai_result E raw
      .ok { v with topics := normalizeIfNonempty E v.topics }

/-- `analyze_with_openai` (ai_service.py lines 303-407); structurally
identical to the Claude path. -/
def analyze_with_openai (E : SetEnum) (api_key : String)
    (net : Except String RawAI) (text : String) : Except String AIResult :=
  if !pyTruthy api_key || !pyTruthy (pyStrip api_key) then
    .error "OpenAI API key not configured"
  else if !pyTruthy text || (pyStrip text).length = 0 then
    .error "Empty text provided for analysis"
  else
    match net with
    | .error e => .error e
    | .ok raw =>
      let v := validate_ai_result E raw
      .ok { v with topics := normalizeIfNonempty E v.topics }

def positive_words : List String :=
  ["good", "great", "excellent", "awesome", "love", "happy", "satisfied",
   "recommend"]

def negative_words : List String :=
  ["bad", "poor", "terrible", "awful", "hate", "disappointed",
   "dissatisfied", "problem", "issue"]

/-- The keyword-count text sentiment of `analyze_local` (lines 427-445):
count the fixed positive and negative word lists as substrings of the
lowercased text and compare. -/
def text_sentiment_of (lower : String) : String :=
  let pc := (positive_words.filter fun w => pyIn w lower).length
  let nc := (negative_words.filter fun w => pyIn w lower).length
  if pc > nc then "positive"
  else if nc > pc then "negative"
  else "neutral"

/-- The canonical names of the taxonomy entries with a keyword occurring
in the lowercased text (`analyze_local` lines 472-481). -/
def detected_topics (lower : String) : List String :=
  (STANDARD_TOPICS.filter fun t => t.keywords.any fun k => pyIn k lower).map
    (·.name)

/-- The topic list of `analyze_local` (lines 483-487): normalize the
detected topics, keep at most 3, and fall back to the literal
`"General Feedback"` when nothing was detected. -/
def local_topics (E : SetEnum) (lower : String) : List String :=
  let topics := normalize_topics E (detected_topics lower)
  if topics ≠ [] then topics.take 3 else ["General Feedback"]

/-- `analyze_local` (ai_service.py lines 409-496).  When a rating is
supplied, both branches of the conflict check (lines 459-466) assign the
rating-implied sentiment, so the final sentiment is `ratingSentiment`. -/
def analyze_local (E : SetEnum) (text : String) (rating : Option ℤ) :
    AIResult :=
  if !pyTruthy text || !pyTruthy (pyStrip text) then
    { sentiment := "neutral", topics := [], method := some "local_fallback" }
  else
    { sentiment :=
        match rating with
        | some r => ratingSentiment r
        | none => text_sentiment_of (pyLower text),
      topics := local_topics E (pyLower text),
      method := some "local_analysis" }

/-- `_adjust_sentiment_with_rating` (ai_service.py lines 598-621). -/
def adjust_sentiment_with_rating (res : AIResult) (rating : Option ℤ) :
    AIResult :=
  match rating with
  | none => res
  | some r =>
    let rs := ratingSentiment r
    if pyTruthy res.sentiment ∧ res.sentiment ≠ rs then
      { res with sentiment := rs, sentiment_adjusted := true,
                 original_ai_sentiment := some res.sentiment }
    else res

/-- The sentiment re-validation of `analyze_feedback` (lines 171-175). -/
def af_validate (res : AIResult) : AIResult :=
  if res.sentiment ∈ valid_sentiments then res
  else { res with sentiment := "neutral" }

/-- The tail of `analyze_feedback` (lines 157-196) applied to the pair of
(current result, caught error detail): sentiment re-validation, rating
adjustment when a rating is present and a remote backend is configured
(lines 186-188), and fallback annotation when an error was caught
(lines 190-193). -/
def af_finalize (service_type : String) (rating : Option ℤ)
    (state : AIResult × Option String) : AIResult :=
  let result := af_validate state.1
  let result :=
    if rating.isSome ∧ (service_type = "claude" ∨ service_type = "openai")
    then adjust_sentiment_with_rating result rating
    else result
  match state.2 with
  | some e => { result with ai_error := some e, fallback_used := true }
  | none => result

/-- `analyze_feedback` (ai_service.py lines 124-196).  `service_type` is
`settings.AI_SERVICE_TYPE`; `net` is the behaviour of the configured
remote backend for this call.  The function is total: every failure of
the remote path is caught (lines 151-155) and resolved through
`analyze_local`.  The re-validation at lines 158-170 and 177-184 concerns
results that are not dicts or lack keys, which cannot arise from either
branch; the sentiment re-check at lines 171-175 is embedded. -/
def analyze_feedback (E : SetEnum) (service_type api_key : String)
    (net : Except String RawAI) (text : String) (rating : Option ℤ) :
    AIResult :=
  if !pyTruthy text || !pyTruthy (pyStrip text) then
    { sentiment := "neutral", topics := [],
      errorMsg := some "Empty input text" }
  else
    af_finalize service_type rating
      (match
        (if service_type = "claude" then analyze_with_claude E api_key net text
         else if service_type = "openai" then
           analyze_with_openai E api_key net text
         else .ok (analyze_local E text rating)) with
       | .ok r => (r, (none : Option String))
       | .error e => (analyze_local E text rating, some e))

/-! ## Universal review importer (`universal_review_importer.py`) -/

/-- `platform_indicators` (universal_review_importer.py lines 85-164), in
dict insertion order, with the confidence weights.  The weights are
integer literals in the source; the partial-match multipliers 0.7 and 0.5
(exactly representable in both binary floating point and ℚ for these
weights) make the scores rationals. -/
def platform_indicators : List (String × List (String × ℕ)) :=
  [ ("amazon",
     [("review_body", 10), ("vine_customer_review", 10),
      ("verified_purchase", 10), ("marketplace", 10), ("product_id", 9),
      ("product_title", 8), ("product_category", 8), ("helpful_votes", 8),
      ("total_votes", 8), ("asin", 9), ("star_rating", 5),
      ("reviewer_name", 3), ("review_date", 3)]),
    ("google",
     [("reviewer_display_name", 10), ("review_id", 10), ("review_reply", 8),
      ("reviewer_profile_photo", 8), ("business_reply", 8),
      ("location_id", 9), ("star_rating", 3), ("review_comment", 5),
      ("review_text", 3), ("create_time", 4)]),
    ("yelp",
     [("business_id", 10), ("review_id", 9), ("user_id", 8),
      ("elite_year", 10), ("cool", 8), ("funny", 8), ("useful", 8),
      ("rating", 3), ("text", 3), ("date", 2)]),
    ("facebook",
     [("recommendation_type", 10), ("created_time", 9), ("from_name", 8),
      ("from_id", 8), ("page_id", 8), ("post_id", 7), ("message", 5),
      ("rating", 4)]),
    ("tripadvisor",
     [("visit_date", 10), ("trip_type", 9), ("traveler_type", 8),
      ("hotel_id", 8), ("location_id", 8), ("rating", 5),
      ("review_text", 4), ("title", 4)]) ]

/-- The per-indicator scoring chain of `detect_platform` (lines 173-185):
exact membership scores the full weight; otherwise an indicator occurring
as a substring of some column scores 0.7 of the weight; otherwise a column
of length > 3 occurring as a substring of the indicator scores 0.5 of the
weight. -/
def indicator_score (cols : List String) (indicator : String) (weight : ℕ) :
    ℚ :=
  if cols.contains indicator then (weight : ℚ)
  else if cols.any (fun col => pyIn indicator col) then
    (weight : ℚ) * (7 / 10)
  else if cols.any (fun col => decide (3 < col.length) && pyIn col indicator)
  then (weight : ℚ) * (1 / 2)
  else 0

/-- Sum of indicator scores for one platform (lines 169-186). -/
def platform_score (cols : List String) (ind : List (String × ℕ)) : ℚ :=
  (ind.map fun p => indicator_score cols p.1 p.2).sum

/-- `indicator_score` in tenths of a point: an integer-valued version used
to compute concrete scores inside the kernel (rational arithmetic does not
reduce there); `indicator_score_eq_deci` proves it equal to the rational
score. -/
def indicator_deciscore (cols : List String) (indicator : String)
    (weight : ℕ) : ℕ :=
  if cols.contains indicator then 10 * weight
  else if cols.any (fun col => pyIn indicator col) then 7 * weight
  else if cols.any (fun col => decide (3 < col.length) && pyIn col indicator)
  then 5 * weight
  else 0

def platform_deciscore (cols : List String) (ind : List (String × ℕ)) : ℕ :=
  (ind.map fun p => indicator_deciscore cols p.1 p.2).sum

theorem indicator_score_eq_deci (cols : List String) (indicator : String)
    (weight : ℕ) :
    indicator_score cols indicator weight =
      (indicator_deciscore cols indicator weight : ℚ) / 10 := by
  simp only [indicator_score, indicator_deciscore]
  split
  · push_cast; ring
  · split
    · push_cast; ring
    · split
      · push_cast; ring
      · norm_num

theorem platform_score_eq_deci (cols : List String)
    (ind : List (String × ℕ)) :
    platform_score cols ind = (platform_deciscore cols ind : ℚ) / 10 := by
  simp only [platform_score, platform_deciscore]
  induction ind with
  | nil => simp
  | cons p t ih =>
    rw [List.map_cons, List.sum_cons, List.map_cons, List.sum_cons, ih,
        indicator_score_eq_deci]
    push_cast
    ring

/-- `detect_platform` (universal_review_importer.py lines 77-210).
Python's `max` with a key returns the first maximal entry in dict
insertion order; the fold below keeps the current entry unless a later
one is strictly greater. -/
def detect_platform (columns : List String) : String :=
  let cols := columns.map fun c => pyStrip (pyLower c)
  let scores := platform_indicators.map fun p => (p.1, platform_score cols p.2)
  match scores with
  | [] => "generic"
  | s0 :: rest =>
    let best := rest.foldl (fun acc s => if s.2 > acc.2 then s else acc) s0
    if best.2 < 3 then "generic" else best.1

/-- `detect_platform` computed in tenths of a point (so that the kernel
can evaluate it); `detect_platform_eq_deci` proves it equal to
`detect_platform`. -/
def detect_platform_deci (columns : List String) : String :=
  let cols := columns.map fun c => pyStrip (pyLower c)
  let scores :=
    platform_indicators.map fun p => (p.1, platform_deciscore cols p.2)
  match scores with
  | [] => "generic"
  | s0 :: rest =>
    let best := rest.foldl (fun acc s => if s.2 > acc.2 then s else acc) s0
    if best.2 < 30 then "generic" else best.1

theorem foldl_best_map (g : ℕ → ℚ) (hg : StrictMono g) :
    ∀ (rest : List (String × ℕ)) (s0 : String × ℕ),
      (rest.map fun p => (p.1, g p.2)).foldl
          (fun acc s => if s.2 > acc.2 then s else acc) (s0.1, g s0.2) =
        ((rest.foldl (fun acc s => if s.2 > acc.2 then s else acc) s0).1,
         g (rest.foldl (fun acc s => if s.2 > acc.2 then s else acc)
             s0).2) := by
  intro rest
  induction rest with
  | nil => intro s0; rfl
  | cons p t ih =>
    intro s0
    simp only [List.map_cons, List.foldl_cons]
    by_cases h : p.2 > s0.2
    · rw [if_pos (by exact hg.lt_iff_lt.mpr h), if_pos h]
      exact ih p
    · rw [if_neg (fun hc => h (hg.lt_iff_lt.mp hc)), if_neg h]
      exact ih s0

theorem deci_lt_three (n : ℕ) : ((n : ℚ) / 10 < 3) ↔ n < 30 := by
  rw [div_lt_iff₀ (by norm_num)]
  constructor
  · intro h; exact_mod_cast h
  · intro h; exact_mod_cast h

theorem detect_platform_eq_deci (columns : List String) :
    detect_platform columns = detect_platform_deci columns := by
  have hg : StrictMono fun n : ℕ => (n : ℚ) / 10 := by
    intro a b hab
    have hq : (a : ℚ) < b := by exact_mod_cast hab
    exact div_lt_div_of_pos_right hq (by norm_num)
  simp only [detect_platform, detect_platform_deci]
  generalize (columns.map fun c => pyStrip (pyLower c)) = cols
  generalize platform_indicators = tbl
  cases tbl with
  | nil => rfl
  | cons p rest =>
    simp only [List.map_cons]
    have hmap : rest.map (fun p => (p.1, platform_score cols p.2)) =
        (rest.map fun p => (p.1, platform_deciscore cols p.2)).map
          (fun q => (q.1, (q.2 : ℚ) / 10)) := by
      rw [List.map_map]
      exact List.map_congr_left fun p _ => by
        simp [Function.comp, platform_score_eq_deci]
    rw [hmap, platform_score_eq_deci]
    rw [foldl_best_map (fun n : ℕ => (n : ℚ) / 10) hg
        (rest.map fun p => (p.1, platform_deciscore cols p.2))
        (p.1, platform_deciscore cols p.2)]
    rw [if_congr (deci_lt_three _) rfl rfl]

theorem foldl_pick_mem {α : Type} (pick : α → α → α)
    (hpick : ∀ a b, pick a b = a ∨ pick a b = b) :
    ∀ (rest : List α) (s0 : α), rest.foldl pick s0 ∈ s0 :: rest := by
  intro rest
  induction rest with
  | nil => intro s0; exact List.mem_cons_self _ _
  | cons p t ih =>
    intro s0
    rw [List.foldl_cons]
    rcases List.mem_cons.mp (ih (pick s0 p)) with h | h
    · rw [h]
      rcases hpick s0 p with hp | hp <;> rw [hp]
      · exact List.mem_cons_self _ _
      · exact List.mem_cons_of_mem _ (List.mem_cons_self _ _)
    · exact List.mem_cons_of_mem _ (List.mem_cons_of_mem _ h)

/-- If every platform scores strictly below the threshold 3, detection
returns `generic`. -/
theorem detect_platform_generic_of_lt (columns : List String)
    (h : ∀ pl ∈ platform_indicators,
       platform_score (columns.map fun c => pyStrip (pyLower c)) pl.2 < 3) :
    detect_platform columns = "generic" := by
  simp only [detect_platform]
  generalize hc : (columns.map fun c => pyStrip (pyLower c)) = cols at h ⊢
  generalize htbl : platform_indicators = tbl at h ⊢
  cases tbl with
  | nil => rfl
  | cons p0 rest =>
    simp only [List.map_cons]
    have hmem := foldl_pick_mem
      (fun acc s : String × ℚ => if s.2 > acc.2 then s else acc)
      (fun a b => by dsimp only; split; exacts [Or.inr rfl, Or.inl rfl])
      (rest.map fun p => (p.1, platform_score cols p.2))
      (p0.1, platform_score cols p0.2)
    have hlt : ((rest.map fun p => (p.1, platform_score cols p.2)).foldl
        (fun acc s => if s.2 > acc.2 then s else acc)
        (p0.1, platform_score cols p0.2)).2 < 3 := by
      rcases List.mem_cons.mp hmem with hb | hb
      · rw [hb]; exact h p0 (List.mem_cons_self _ _)
      · obtain ⟨pl, hpl, hfpl⟩ := List.mem_map.mp hb
        rw [← hfpl]
        exact h pl (List.mem_cons_of_mem _ hpl)
    rw [if_pos hlt]

/-- The per-platform accepted source-name variants of `COLUMN_MAPPINGS`
(universal_review_importer.py lines 21-75). -/
structure FieldVariants where
  rating : List String
  comment : List String
  date : List String
  reviewer : List String
  source : List String
deriving Repr, DecidableEq

def COLUMN_MAPPINGS (platform : String) : Option FieldVariants :=
  if platform = "google" then some
    ⟨["star_rating", "rating", "stars", "review_rating"],
     ["review_text", "comment", "review_comment", "text", "review"],
     ["review_date", "date", "created_date", "timestamp", "create_time"],
     ["reviewer_name", "customer_name", "name", "reviewer",
      "reviewer_display_name"],
     ["source", "platform"]⟩
  else if platform = "yelp" then some
    ⟨["rating", "stars", "star_rating"],
     ["text", "review_text", "comment"],
     ["date", "review_date", "created_date"],
     ["user_name", "reviewer_name", "name"],
     ["source"]⟩
  else if platform = "facebook" then some
    ⟨["rating", "recommendation_type", "stars"],
     ["review_text", "comment", "message"],
     ["created_time", "date"],
     ["reviewer_name", "from_name", "name"],
     ["source"]⟩
  else if platform = "amazon" then some
    ⟨["star_rating", "rating", "stars"],
     ["review_body", "review_text", "comment"],
     ["review_date", "date"],
     ["reviewer_name", "customer_name"],
     ["marketplace", "source"]⟩
  else if platform = "tripadvisor" then some
    ⟨["rating", "stars", "star_rating"],
     ["review_text", "text", "comment"],
     ["date", "review_date", "visit_date"],
     ["reviewer_name", "username", "name"],
     ["source"]⟩
  else if platform = "generic" then some
    ⟨["rating", "stars", "star_rating", "score"],
     ["comment", "review", "text", "feedback", "review_text",
      "feedback_text"],
     ["date", "created_date", "review_date", "timestamp"],
     ["name", "customer_name", "reviewer_name", "user_name"],
     ["source", "platform", "origin"]⟩
  else none

/-- `_find_column` (universal_review_importer.py lines 252-258): first
variant (outer loop) for which some column (inner loop, in column order)
is equal to it or related by substring containment in either direction;
returns the original (case-preserved) column name. -/
def find_column (columns_dict : List (String × String))
    (possible_names : List String) : Option String :=
  possible_names.findSome? fun pn =>
    (columns_dict.find? fun c => pn = c.2 || pyIn pn c.2 || pyIn c.2 pn).map
      (·.1)

/-- Which canonical columns a mapped table has. -/
structure Schema where
  hasRating : Bool
  hasComment : Bool
  hasDate : Bool
  hasReviewer : Bool
  hasSource : Bool
deriving Repr, DecidableEq

/-- Python truthiness of `rating_col` etc. in `map_columns`: a found
column participates only if its name is a non-empty string. -/
def truthyCol (o : Option String) : Bool :=
  match o with
  | some s => pyTruthy s
  | none => false

/-- The column-selection part of `map_columns`
(universal_review_importer.py lines 212-250).  Each canonical column is
present exactly when a source column matched (`if rating_col:` …);
`source` is synthesized as the constant platform title when no source
column matched (line 248).  When nothing matched at all, the resulting
dict holds only that scalar and `pd.DataFrame` raises
(`ValueError: If using all scalar values, you must pass an index`).
The cell data carried into the mapped columns is not needed by the claims
about the schema and is left abstract. -/
def map_columns_schema (columns : List String) (platform : String) :
    Except String Schema :=
  match COLUMN_MAPPINGS platform with
  | none => .error "KeyError: unknown platform"
  | some m =>
    let cd := columns.map fun c => (c, pyStrip (pyLower c))
    let r := truthyCol (find_column cd m.rating)
    let c := truthyCol (find_column cd m.comment)
    let d := truthyCol (find_column cd m.date)
    let rv := truthyCol (find_column cd m.reviewer)
    let s := truthyCol (find_column cd m.source)
    if !r && !c && !d && !rv && !s then
      .error "ValueError: If using all scalar values, you must pass an index"
    else .ok ⟨r, c, d, rv, true⟩

/-- A raw cell of a rating column before numeric coercion:
`pd.to_numeric(errors=coerce)` maps `numeric q` to `q` and everything
else (non-numeric strings, missing values) to NaN. -/
inductive RawCell where
  | numeric (q : ℚ)
  | nonNumeric
  | missing
deriving Repr, DecidableEq

def toNumeric : RawCell → Option ℚ
  | .numeric q => some q
  | _ => none

/-- pandas `.clip(1, 5)`. -/
def clip15 (q : ℚ) : ℚ := min 5 (max 1 q)

/-- pandas/numpy `.round()`: round half to even. -/
def roundHalfEven (q : ℚ) : ℤ :=
  let n := ⌊q⌋
  let frac := q - n
  if frac < 1 / 2 then n
  else if 1 / 2 < frac then n + 1
  else if n % 2 = 0 then n
  else n + 1

/-- pandas `Series.max()` (skipna): maximum of the non-missing values,
NaN (`none`) when there are none. -/
def seriesMax : List ℚ → Option ℚ
  | [] => none
  | v :: vs => some (vs.foldl max v)

/-- pandas `Series.min()` (skipna). -/
def seriesMin : List ℚ → Option ℚ
  | [] => none
  | v :: vs => some (vs.foldl min v)

/-- `pd.to_numeric(ratings, errors=coerce)` applied to the column. -/
def numericCells (ratings : List RawCell) : List (Option ℚ) :=
  ratings.map toNumeric

/-- The non-missing values of the coerced column (what `Series.max` and
`Series.min` range over). -/
def ratingVals (ratings : List RawCell) : List ℚ :=
  (numericCells ratings).filterMap id

/-- `_normalize_rating` (universal_review_importer.py lines 260-281). -/
def normalize_rating (ratings : List RawCell) : List (Option ℚ) :=
  match seriesMax (ratingVals ratings), seriesMin (ratingVals ratings) with
  | some M, some m =>
    if M ≤ 5 ∧ 1 ≤ m then
      (numericCells ratings).map (Option.map fun q => (roundHalfEven q : ℚ))
    else if M ≤ 10 then
      (numericCells ratings).map
        (Option.map fun q => clip15 (roundHalfEven (q / 2) : ℚ))
    else if M ≤ 100 then
      (numericCells ratings).map
        (Option.map fun q => clip15 (roundHalfEven (q / 20) : ℚ))
    else
      (numericCells ratings).map (Option.map clip15)
  | _, _ => numericCells ratings

/-- A row of a mapped table.  `comment`, `reviewer_name` and `source` are
string cells (`none` = NaN); `rating` keeps its raw shape because
`validate_and_clean` re-coerces it. -/
structure Row where
  comment : Option String := none
  rating : RawCell := .missing
  reviewer_name : Option String := none
  source : Option String := none
deriving Repr, DecidableEq

/-- A mapped table: which canonical columns exist, and the rows.  A row
field is meaningful only when the schema has the column. -/
structure Table where
  schema : Schema
  rows : List Row
deriving Repr, DecidableEq

structure ValidationStats where
  original_count : ℕ
  final_count : ℕ
  success_rate : ℚ
  issues : List String
deriving Repr, DecidableEq

/-- Rule 1 of `validate_and_clean` (lines 329-332):
`df.dropna(subset=[comment, rating], how=all)` — drop rows where both
cells are missing.  Non-numeric rating strings are not NaN, so only
`missing` counts as absent here. -/
def vc_rule1 (rows : List Row) : List Row :=
  rows.filter fun r => !(r.comment.isNone && (r.rating = RawCell.missing))

/-- Rule 2 (lines 335-342): fill missing comments with the empty string,
strip, then drop rows with an empty comment and a missing rating. -/
def vc_rule2 (rows : List Row) : List Row :=
  (rows.map fun r =>
      { r with comment := some (pyStrip (r.comment.getD "")) }).filter
    fun r => !((r.comment = some "") && (r.rating = RawCell.missing))

/-- Rule 3 (lines 345-350): coerce ratings to numeric and keep rows whose
rating is missing or between 1 and 5 (inclusive). -/
def vc_rule3 (rows : List Row) : List Row :=
  (rows.map fun r =>
      { r with rating := match toNumeric r.rating with
                         | some q => RawCell.numeric q
                         | none => RawCell.missing }).filter
    fun r =>
      match r.rating with
      | .missing => true
      | .numeric q => decide (1 ≤ q ∧ q ≤ 5)
      | .nonNumeric => false

/-- Rule 4, reviewer half (lines 353-357): fill reviewer names with
`Anonymous`. -/
def vc_rule4 (sch : Schema) (rows : List Row) : List Row :=
  if sch.hasReviewer then
    rows.map fun r =>
      let v := pyStrip (r.reviewer_name.getD "Anonymous")
      { r with reviewer_name := some (if v = "" then "Anonymous" else v) }
  else rows

/-- Rule 4, source half (lines 360-363): fill sources with `Unknown`. -/
def vc_rule5 (sch : Schema) (rows : List Row) : List Row :=
  if sch.hasSource then
    rows.map fun r =>
      let v := pyStrip (r.source.getD "Unknown")
      { r with source := some (if v = "" then "Unknown" else v) }
  else rows

/-- `validate_and_clean` (universal_review_importer.py lines 318-372).
The first rule, `df.dropna(subset=[comment, rating], how=all)`, raises
`KeyError` when either subset column is not in the frame; afterwards both
column guards (`if comment in df.columns` …) are necessarily true.  The
`imported_at`/`import_method` stamps (lines 366-367) add constant columns
and touch no counts; the wall-clock timestamp is not modelled. -/
def validate_and_clean (t : Table) :
    Except String (Table × ValidationStats) :=
  if !(t.schema.hasComment && t.schema.hasRating) then
    .error "KeyError: dropna subset columns not in index"
  else
    let original := t.rows.length
    let rows1 := vc_rule1 t.rows
    let rows2 := vc_rule2 rows1
    let rows3 := vc_rule3 rows2
    let rows5 := vc_rule5 t.schema (vc_rule4 t.schema rows3)
    let n1 := original - rows1.length
    let n2 := rows1.length - rows2.length
    let n3 := rows2.length - rows3.length
    .ok ({ schema := t.schema, rows := rows5 },
      { original_count := original,
        final_count := rows5.length,
        success_rate :=
          if original > 0 then (rows5.length : ℚ) / original else 0,
        issues :=
          (if rows1.length < original then
             [s!"Removed {n1} rows with no comment or rating"]
           else []) ++
          (if rows2.length < rows1.length then
             [s!"Removed {n2} rows with empty comments and no rating"]
           else []) ++
          (if rows3.length < rows2.length then
             [s!"Removed {n3} rows with invalid ratings"]
           else []) })

/-! ## Helper lemmas -/

theorem SetEnum.mem_f (E : SetEnum) {s : Finset String} {y : String} :
    y ∈ E.f s ↔ y ∈ s := by
  rw [← List.mem_toFinset, E.complete]

theorem SetEnum.length_f (E : SetEnum) (s : Finset String) :
    (E.f s).length = s.card := by
  conv_rhs => rw [← E.complete s]
  exact (List.toFinset_card_of_nodup (E.nodup s)).symm

theorem SetEnum.f_empty (E : SetEnum) : E.f ∅ = [] := by
  have h := E.complete ∅
  rwa [List.toFinset_eq_empty_iff] at h

theorem all_topic_map_canonical :
    ∀ p ∈ topic_map, p.2 ∈ canonicalTopicNames := by decide

theorem fuzzy_mem_canonical {x y : String}
    (h : fuzzy_match_topic x = some y) : y ∈ canonicalTopicNames := by
  simp only [fuzzy_match_topic] at h
  split at h
  · cases h; decide
  · split at h
    · cases h; decide
    · split at h
      · cases h; decide
      · split at h
        · cases h; decide
        · cases h

theorem normalizeOne_mem_canonical {x y : String}
    (h : normalizeOne x = some y) : y ∈ canonicalTopicNames := by
  simp only [normalizeOne] at h
  split at h
  · cases h
  · split at h
    case _ t heq =>
      cases h
      simp only [topicMapLookup, Option.map_eq_some'] at heq
      obtain ⟨p, hp, hpt⟩ := heq
      subst hpt
      exact all_topic_map_canonical p (List.mem_of_find?_eq_some hp)
    case _ heq =>
      split at h
      case _ p heq2 =>
        cases h
        exact all_topic_map_canonical p (List.mem_of_find?_eq_some heq2)
      case _ => exact fuzzy_mem_canonical h

set_option maxRecDepth 1000000 in
theorem normalizeOne_canonical_self :
    ∀ n ∈ canonicalTopicNames, normalizeOne n = some n := by decide

theorem normalizedSet_subset_canonical {raws : List String} :
    ∀ y ∈ normalizedSet raws, y ∈ canonicalTopicNames := by
  intro y hy
  simp only [normalizedSet, List.mem_toFinset, List.mem_filterMap] at hy
  obtain ⟨x, _, hx⟩ := hy
  exact normalizeOne_mem_canonical hx

theorem normalizedSet_card_le (raws : List String) :
    (normalizedSet raws).card ≤ raws.length :=
  le_trans (List.toFinset_card_le _) (List.length_filterMap_le _ _)

theorem normalizedSet_canonical_eq {l : List String}
    (h : ∀ x ∈ l, x ∈ canonicalTopicNames) :
    normalizedSet l = l.toFinset := by
  induction l with
  | nil => rfl
  | cons x t ih =>
    have hx : normalizeOne x = some x :=
      normalizeOne_canonical_self x (h x (List.mem_cons_self x t))
    have ht : ∀ y ∈ t, y ∈ canonicalTopicNames := fun y hy =>
      h y (List.mem_cons_of_mem x hy)
    simp only [normalizedSet, List.filterMap_cons, hx, List.toFinset_cons]
    simpa [normalizedSet] using congrArg (insert x) (ih ht)

theorem normalize_topics_nodup (E : SetEnum) (raws : List String) :
    (normalize_topics E raws).Nodup := E.nodup _

theorem normalize_topics_mem_canonical (E : SetEnum) {raws : List String}
    {y : String} (h : y ∈ normalize_topics E raws) :
    y ∈ canonicalTopicNames :=
  normalizedSet_subset_canonical y ((E.mem_f).mp h)

theorem normalize_topics_length_le (E : SetEnum) (raws : List String) :
    (normalize_topics E raws).length ≤ raws.length := by
  rw [normalize_topics, E.length_f]
  exact normalizedSet_card_le raws

theorem normalizeIfNonempty_wf (E : SetEnum) (l : List String) :
    (normalizeIfNonempty E l).Nodup ∧
    (normalizeIfNonempty E l).length ≤ l.length ∧
    ∀ t ∈ normalizeIfNonempty E l, t ∈ canonicalTopicNames := by
  by_cases h : l = []
  · subst h; simp [normalizeIfNonempty]
  · simp only [normalizeIfNonempty, if_pos h]
    exact ⟨normalize_topics_nodup E l, normalize_topics_length_le E l,
           fun t ht => normalize_topics_mem_canonical E ht⟩

theorem cleanTopicsLoop_length_le :
    ∀ (l acc : List String), acc.length < 3 →
      (cleanTopicsLoop acc l).length ≤ 3 := by
  intro l
  induction l with
  | nil => intro acc h; simpa [cleanTopicsLoop] using le_of_lt h
  | cons t rest ih =>
    intro acc h
    simp only [cleanTopicsLoop]
    split <;> split
    · simp only [List.length_append, List.length_singleton]; omega
    · next h3 => exact ih _ (Nat.not_le.mp h3)
    · omega
    · next h3 => exact ih _ (Nat.not_le.mp h3)

theorem validate_ai_result_wf (E : SetEnum) (raw : RawAI) :
    (validate_ai_result E raw).sentiment ∈ valid_sentiments ∧
    (validate_ai_result E raw).topics.Nodup ∧
    (validate_ai_result E raw).topics.length ≤ 3 ∧
    (∀ t ∈ (validate_ai_result E raw).topics, t ∈ canonicalTopicNames) ∧
    (validate_ai_result E raw).ai_error = none ∧
    (validate_ai_result E raw).fallback_used = false := by
  obtain ⟨hn, hl, hm⟩ := normalizeIfNonempty_wf E (cleanTopicsLoop []
    (match raw.topics with
     | .tlist xs => xs
     | .tstr t => if pyTruthy t then [t] else []
     | .absent => []))
  have hlen : (cleanTopicsLoop []
      (match raw.topics with
       | .tlist xs => xs
       | .tstr t => if pyTruthy t then [t] else []
       | .absent => [])).length ≤ 3 :=
    cleanTopicsLoop_length_le _ [] (by simp)
  refine ⟨?_, hn, le_trans hl hlen, hm, rfl, rfl⟩
  simp only [validate_ai_result]
  split
  · assumption
  · simp [valid_sentiments]

theorem analyze_with_claude_ok {E : SetEnum} {key text : String}
    {net : Except String RawAI} {v : AIResult}
    (h : analyze_with_claude E key net text = .ok v) :
    v.sentiment ∈ valid_sentiments ∧ v.topics.Nodup ∧
    v.topics.length ≤ 3 ∧ (∀ t ∈ v.topics, t ∈ canonicalTopicNames) ∧
    v.ai_error = none ∧ v.fallback_used = false := by
  simp only [analyze_with_claude] at h
  split at h
  · cases h
  · split at h
    · cases h
    · split at h
      · cases h
      · rename_i raw
        cases h
        obtain ⟨hs, -, hl0, -, he, hf⟩ := validate_ai_result_wf E raw
        obtain ⟨hn, hl, hm⟩ :=
          normalizeIfNonempty_wf E (validate_ai_result E raw).topics
        exact ⟨hs, hn, le_trans hl hl0, hm, he, hf⟩

theorem analyze_with_openai_ok {E : SetEnum} {key text : String}
    {net : Except String RawAI} {v : AIResult}
    (h : analyze_with_openai E key net text = .ok v) :
    v.sentiment ∈ valid_sentiments ∧ v.topics.Nodup ∧
    v.topics.length ≤ 3 ∧ (∀ t ∈ v.topics, t ∈ canonicalTopicNames) ∧
    v.ai_error = none ∧ v.fallback_used = false := by
  simp only [analyze_with_openai] at h
  split at h
  · cases h
  · split at h
    · cases h
    · split at h
      · cases h
      · rename_i raw
        cases h
        obtain ⟨hs, -, hl0, -, he, hf⟩ := validate_ai_result_wf E raw
        obtain ⟨hn, hl, hm⟩ :=
          normalizeIfNonempty_wf E (validate_ai_result E raw).topics
        exact ⟨hs, hn, le_trans hl hl0, hm, he, hf⟩

theorem ratingSentiment_valid (r : ℤ) : ratingSentiment r ∈ valid_sentiments := by
  simp only [ratingSentiment]
  split
  · simp [valid_sentiments]
  · split <;> simp [valid_sentiments]

theorem text_sentiment_of_valid (lower : String) :
    text_sentiment_of lower ∈ valid_sentiments := by
  simp only [text_sentiment_of]
  split
  · simp [valid_sentiments]
  · split <;> simp [valid_sentiments]

theorem local_topics_wf (E : SetEnum) (lower : String) :
    (local_topics E lower).Nodup ∧ (local_topics E lower).length ≤ 3 ∧
    ∀ t ∈ local_topics E lower,
      t ∈ canonicalTopicNames ∨ t = "General Feedback" := by
  simp only [local_topics]
  by_cases h : normalize_topics E (detected_topics lower) = []
  · simp [h]
  · simp only [ne_eq, h, not_false_iff, if_true]
    refine ⟨(normalize_topics_nodup E _).sublist (List.take_sublist _ _),
            List.length_take_le _ _, fun t ht => Or.inl ?_⟩
    exact normalize_topics_mem_canonical E (List.take_subset _ _ ht)

theorem analyze_local_wf (E : SetEnum) (text : String) (rating : Option ℤ) :
    (analyze_local E text rating).sentiment ∈ valid_sentiments ∧
    (analyze_local E text rating).topics.Nodup ∧
    (analyze_local E text rating).topics.length ≤ 3 ∧
    (∀ t ∈ (analyze_local E text rating).topics,
       t ∈ canonicalTopicNames ∨ t = "General Feedback") ∧
    (analyze_local E text rating).ai_error = none ∧
    (analyze_local E text rating).fallback_used = false := by
  obtain ⟨hn, hl, hm⟩ := local_topics_wf E (pyLower text)
  simp only [analyze_local]
  split
  · simp [valid_sentiments]
  · refine ⟨?_, hn, hl, hm, rfl, rfl⟩
    cases rating with
    | none => exact text_sentiment_of_valid _
    | some r => exact ratingSentiment_valid r

theorem adjust_none (res : AIResult) :
    adjust_sentiment_with_rating res none = res := rfl

theorem adjust_preserves (res : AIResult) (rating : Option ℤ) :
    (adjust_sentiment_with_rating res rating).topics = res.topics ∧
    (adjust_sentiment_with_rating res rating).method = res.method ∧
    (adjust_sentiment_with_rating res rating).ai_error = res.ai_error ∧
    (adjust_sentiment_with_rating res rating).fallback_used =
      res.fallback_used := by
  cases rating with
  | none => exact ⟨rfl, rfl, rfl, rfl⟩
  | some r =>
    simp only [adjust_sentiment_with_rating]
    split <;> exact ⟨rfl, rfl, rfl, rfl⟩

theorem sentiment_valid_truthy {s : String} (h : s ∈ valid_sentiments) :
    pyTruthy s = true := by
  simp only [valid_sentiments, List.mem_cons, List.not_mem_nil,
    or_false] at h
  rcases h with h | h | h <;> subst h <;> decide

theorem adjust_final_sentiment {res : AIResult} (r : ℤ)
    (h : res.sentiment ∈ valid_sentiments) :
    (adjust_sentiment_with_rating res (some r)).sentiment =
      ratingSentiment r := by
  simp only [adjust_sentiment_with_rating]
  split
  · rfl
  · next hc =>
    rcases Decidable.em (res.sentiment = ratingSentiment r) with he | hne
    · exact he
    · exact absurd ⟨sentiment_valid_truthy h, hne⟩ hc

theorem adjust_sentiment_valid {res : AIResult} (rating : Option ℤ)
    (h : res.sentiment ∈ valid_sentiments) :
    (adjust_sentiment_with_rating res rating).sentiment ∈
      valid_sentiments := by
  cases rating with
  | none => exact h
  | some r =>
    simp only [adjust_sentiment_with_rating]
    split
    · exact ratingSentiment_valid r
    · exact h

theorem adjust_override {res : AIResult} (r : ℤ)
    (ht : pyTruthy res.sentiment = true)
    (hne : res.sentiment ≠ ratingSentiment r) :
    adjust_sentiment_with_rating res (some r) =
      { res with sentiment := ratingSentiment r, sentiment_adjusted := true,
                 original_ai_sentiment := some res.sentiment } := by
  simp only [adjust_sentiment_with_rating]
  rw [if_pos ⟨ht, hne⟩]

theorem af_validate_eq_of_valid {res : AIResult}
    (h : res.sentiment ∈ valid_sentiments) : af_validate res = res := by
  simp [af_validate, h]

theorem af_validate_valid (res : AIResult) :
    (af_validate res).sentiment ∈ valid_sentiments := by
  simp only [af_validate]
  split
  · assumption
  · simp [valid_sentiments]

theorem af_validate_preserves (res : AIResult) :
    (af_validate res).topics = res.topics ∧
    (af_validate res).method = res.method ∧
    (af_validate res).ai_error = res.ai_error ∧
    (af_validate res).fallback_used = res.fallback_used := by
  simp only [af_validate]
  split <;> exact ⟨rfl, rfl, rfl, rfl⟩

theorem af_finalize_error (svc : String) (rating : Option ℤ) (L : AIResult)
    (e : String) (hsvc : svc = "claude" ∨ svc = "openai")
    (hL : L.sentiment ∈ valid_sentiments) :
    af_finalize svc rating (L, some e) =
      { adjust_sentiment_with_rating L rating with
          ai_error := some e, fallback_used := true } := by
  cases rating with
  | none =>
    simp [af_finalize, af_validate_eq_of_valid hL, adjust_none]
  | some r =>
    rcases hsvc with h | h <;> subst h <;>
      simp [af_finalize, af_validate_eq_of_valid hL]

theorem af_finalize_none_preserves (svc : String) (rating : Option ℤ)
    (v : AIResult) :
    (af_finalize svc rating (v, none)).ai_error = v.ai_error ∧
    (af_finalize svc rating (v, none)).fallback_used = v.fallback_used ∧
    (af_finalize svc rating (v, none)).topics = v.topics := by
  obtain ⟨vt, -, ve, vf⟩ := af_validate_preserves v
  obtain ⟨at', -, ae, af'⟩ := adjust_preserves (af_validate v) rating
  simp only [af_finalize]
  split
  · exact ⟨ae.trans ve, af'.trans vf, at'.trans vt⟩
  · exact ⟨ve, vf, vt⟩

theorem af_finalize_topics (svc : String) (rating : Option ℤ)
    (st : AIResult × Option String) :
    (af_finalize svc rating st).topics = st.1.topics := by
  obtain ⟨vt, -, -, -⟩ := af_validate_preserves st.1
  obtain ⟨at', -, -, -⟩ := adjust_preserves (af_validate st.1) rating
  have hif :
      (if rating.isSome = true ∧ (svc = "claude" ∨ svc = "openai") then
          adjust_sentiment_with_rating (af_validate st.1) rating
        else af_validate st.1).topics = st.1.topics := by
    split
    · exact at'.trans vt
    · exact vt
  simp only [af_finalize]
  cases h2 : st.2 <;> simpa using hif

theorem af_finalize_sentiment_valid (svc : String) (rating : Option ℤ)
    (st : AIResult × Option String) :
    (af_finalize svc rating st).sentiment ∈ valid_sentiments := by
  have hv := af_validate_valid st.1
  have hif :
      (if rating.isSome = true ∧ (svc = "claude" ∨ svc = "openai") then
          adjust_sentiment_with_rating (af_validate st.1) rating
        else af_validate st.1).sentiment ∈ valid_sentiments := by
    split
    · exact adjust_sentiment_valid rating hv
    · exact hv
  simp only [af_finalize]
  cases h2 : st.2 <;> simpa using hif

theorem af_finalize_rating_sentiment (svc : String) (r : ℤ)
    (st : AIResult × Option String)
    (hsvc : svc = "claude" ∨ svc = "openai") :
    (af_finalize svc (some r) st).sentiment = ratingSentiment r := by
  have hv := af_validate_valid st.1
  have ha := adjust_final_sentiment r hv
  have hif :
      (if (some r).isSome = true ∧ (svc = "claude" ∨ svc = "openai") then
          adjust_sentiment_with_rating (af_validate st.1) (some r)
        else af_validate st.1).sentiment = ratingSentiment r := by
    rw [if_pos ⟨rfl, hsvc⟩]
    exact ha
  simp only [af_finalize]
  cases h2 : st.2 <;> simpa using hif

theorem analyze_feedback_blank (E : SetEnum) (svc key : String)
    (net : Except String RawAI) (text : String) (rating : Option ℤ)
    (hb : (!pyTruthy text || !pyTruthy (pyStrip text)) = true) :
    analyze_feedback E svc key net text rating =
      { sentiment := "neutral", topics := [],
        errorMsg := some "Empty input text" } := by
  simp [analyze_feedback, hb]

theorem analyze_feedback_nonblank (E : SetEnum) (svc key : String)
    (net : Except String RawAI) (text : String) (rating : Option ℤ)
    (hb : (!pyTruthy text || !pyTruthy (pyStrip text)) = false) :
    analyze_feedback E svc key net text rating =
      af_finalize svc rating
        (match
          (if svc = "claude" then analyze_with_claude E key net text
           else if svc = "openai" then analyze_with_openai E key net text
           else .ok (analyze_local E text rating)) with
         | .ok r => (r, (none : Option String))
         | .error e => (analyze_local E text rating, some e)) := by
  simp [analyze_feedback, hb]

theorem analyze_feedback_local_svc (E : SetEnum) (svc key : String)
    (net : Except String RawAI) (text : String) (rating : Option ℤ)
    (h1 : svc ≠ "claude") (h2 : svc ≠ "openai")
    (hb : (!pyTruthy text || !pyTruthy (pyStrip text)) = false) :
    analyze_feedback E svc key net text rating =
      af_finalize svc rating (analyze_local E text rating, none) := by
  rw [analyze_feedback_nonblank _ _ _ _ _ _ hb, if_neg h1, if_neg h2]

/-! ## Claim theorems for the classifier -/

/-- C1: for every input and rating, `analyze_feedback` resolves every
remote-backend failure (modelled as any `Except.error` outcome of the
configured backend call, which covers the missing-key, auth, rate-limit,
5xx, timeout and malformed-payload raises of the source) by returning the
locally analysed result annotated with `fallback_used = true` and the
error detail; a successful remote call yields `fallback_used = false` and
no error annotation; and a blank API key is one such failure.  The
embedding of `analyze_feedback` is a total function, reflecting that the
source catches every exception of the remote path. -/
theorem claim_fallback_on_remote_failure :
    (∀ (E : SetEnum) (svc key text : String) (net : Except String RawAI)
       (rating : Option ℤ) (e : String),
       svc = "claude" ∨ svc = "openai" → text ≠ "" → pyStrip text ≠ "" →
       (if svc = "claude" then analyze_with_claude E key net text
        else analyze_with_openai E key net text) = .error e →
       analyze_feedback E svc key net text rating =
         { adjust_sentiment_with_rating (analyze_local E text rating) rating
             with ai_error := some e, fallback_used := true }) ∧
    (∀ (E : SetEnum) (svc key text : String) (net : Except String RawAI)
       (rating : Option ℤ) (v : AIResult),
       svc = "claude" ∨ svc = "openai" → text ≠ "" → pyStrip text ≠ "" →
       (if svc = "claude" then analyze_with_claude E key net text
        else analyze_with_openai E key net text) = .ok v →
       (analyze_feedback E svc key net text rating).fallback_used = false ∧
       (analyze_feedback E svc key net text rating).ai_error = none) ∧
    (∀ (E : SetEnum) (key text : String) (net : Except String RawAI),
       pyStrip key = "" →
       analyze_with_claude E key net text =
         .error "Claude API key not configured" ∧
       analyze_with_openai E key net text =
         .error "OpenAI API key not configured") := by
  refine ⟨?_, ?_, ?_⟩
  · intro E svc key text net rating e hsvc h1 h2 herr
    have hb : (!pyTruthy text || !pyTruthy (pyStrip text)) = false := by
      simp [pyTruthy, h1, h2]
    have hL := (analyze_local_wf E text rating).1
    rcases hsvc with h | h <;> subst h
    · rw [if_pos rfl] at herr
      rw [analyze_feedback_nonblank _ _ _ _ _ _ hb, if_pos rfl, herr]
      exact af_finalize_error _ _ _ _ (Or.inl rfl) hL
    · rw [if_neg (by decide)] at herr
      rw [analyze_feedback_nonblank _ _ _ _ _ _ hb, if_neg (by decide),
          if_pos rfl, herr]
      exact af_finalize_error _ _ _ _ (Or.inr rfl) hL
  · intro E svc key text net rating v hsvc h1 h2 hok
    have hb : (!pyTruthy text || !pyTruthy (pyStrip text)) = false := by
      simp [pyTruthy, h1, h2]
    rcases hsvc with h | h <;> subst h
    · rw [if_pos rfl] at hok
      obtain ⟨-, -, -, -, he, hf⟩ := analyze_with_claude_ok hok
      rw [analyze_feedback_nonblank _ _ _ _ _ _ hb, if_pos rfl, hok]
      obtain ⟨pe, pf, -⟩ := af_finalize_none_preserves "claude" rating v
      exact ⟨pf.trans hf, pe.trans he⟩
    · rw [if_neg (by decide)] at hok
      obtain ⟨-, -, -, -, he, hf⟩ := analyze_with_openai_ok hok
      rw [analyze_feedback_nonblank _ _ _ _ _ _ hb, if_neg (by decide),
          if_pos rfl, hok]
      obtain ⟨pe, pf, -⟩ := af_finalize_none_preserves "openai" rating v
      exact ⟨pf.trans hf, pe.trans he⟩
  · intro E key text net hkey
    constructor
    · simp [analyze_with_claude, pyTruthy, hkey]
    · simp [analyze_with_openai, pyTruthy, hkey]

/-- Witness for C1: with a blank API key and service type `claude`, the
analysis of a concrete text with rating 1 is the annotated local result. -/
theorem claim_fallback_on_remote_failure_witness :
    analyze_feedback sortEnum "claude" "" (.error "x") "nice product"
        (some 1) =
      { adjust_sentiment_with_rating
          (analyze_local sortEnum "nice product" (some 1)) (some 1) with
          ai_error := some "Claude API key not configured",
          fallback_used := true } :=
  claim_fallback_on_remote_failure.1 sortEnum "claude" "" "nice product"
    (.error "x") (some 1) "Claude API key not configured" (Or.inl rfl)
    (by decide) (by decide)
    (by rw [if_pos rfl]
        exact (claim_fallback_on_remote_failure.2.2 sortEnum "" "nice product"
          (.error "x") (by decide)).1)

/-- C2: whenever a classification result carrying one of the three valid
sentiment labels disagrees with the rating-implied sentiment, the
adjustment returns the rating-implied sentiment and annotates the result
with `original_ai_sentiment` and `sentiment_adjusted`; and on the remote
service types, `analyze_feedback` with a supplied rating always returns
the rating-implied sentiment. -/
theorem claim_rating_reconciliation :
    (∀ (res : AIResult) (r : ℤ),
       res.sentiment ∈ valid_sentiments →
       res.sentiment ≠ ratingSentiment r →
       adjust_sentiment_with_rating res (some r) =
         { res with sentiment := ratingSentiment r,
                    sentiment_adjusted := true,
                    original_ai_sentiment := some res.sentiment }) ∧
    (∀ (E : SetEnum) (svc key text : String) (net : Except String RawAI)
       (r : ℤ),
       svc = "claude" ∨ svc = "openai" → text ≠ "" → pyStrip text ≠ "" →
       (analyze_feedback E svc key net text (some r)).sentiment =
         ratingSentiment r) := by
  constructor
  · intro res r hv hne
    exact adjust_override r (sentiment_valid_truthy hv) hne
  · intro E svc key text net r hsvc h1 h2
    have hb : (!pyTruthy text || !pyTruthy (pyStrip text)) = false := by
      simp [pyTruthy, h1, h2]
    rw [analyze_feedback_nonblank _ _ _ _ _ _ hb]
    exact af_finalize_rating_sentiment svc r _ hsvc

/-- Witness for C2: a positive remote sentiment with rating 1 is
overridden to negative with the annotations, and a concrete
`analyze_feedback` call with rating 1 returns negative. -/
theorem claim_rating_reconciliation_witness :
    adjust_sentiment_with_rating
        { sentiment := "positive", topics := [] } (some 1) =
      { sentiment := "negative", topics := [], sentiment_adjusted := true,
        original_ai_sentiment := some "positive" } ∧
    (analyze_feedback sortEnum "claude" "" (.error "x") "ok"
        (some 1)).sentiment = "negative" := by
  constructor
  · exact claim_rating_reconciliation.1
      { sentiment := "positive", topics := [] } 1 (by decide) (by decide)
  · exact claim_rating_reconciliation.2 sortEnum "claude" "" "ok"
      (.error "x") 1 (Or.inl rfl) (by decide) (by decide)

/-- C8: the Topic Normalizer is idempotent on canonical names: a list of
canonical taxonomy names normalizes to exactly its own set of names, and
re-normalizing any normalizer output does not change the set. -/
theorem claim_topic_normalizer_idempotent :
    (∀ (E : SetEnum) (l : List String),
       (∀ x ∈ l, x ∈ canonicalTopicNames) →
       (normalize_topics E l).toFinset = l.toFinset) ∧
    (∀ (E : SetEnum) (raws : List String),
       (normalize_topics E (normalize_topics E raws)).toFinset =
         (normalize_topics E raws).toFinset) := by
  have key : ∀ (E : SetEnum) (l : List String),
      (∀ x ∈ l, x ∈ canonicalTopicNames) →
      (normalize_topics E l).toFinset = l.toFinset := by
    intro E l h
    rw [normalize_topics, E.complete, normalizedSet_canonical_eq h]
  refine ⟨key, fun E raws => ?_⟩
  rw [key E (normalize_topics E raws)
      (fun x hx => normalize_topics_mem_canonical E hx)]

/-- Witness for C8: a concrete canonical-name list with a duplicate
normalizes to its own set of names. -/
theorem claim_topic_normalizer_idempotent_witness :
    (normalize_topics sortEnum
        ["Product Quality", "Product Quality", "Customer Service"]).toFinset =
      (["Product Quality", "Product Quality",
        "Customer Service"] : List String).toFinset :=
  claim_topic_normalizer_idempotent.1 sortEnum
    ["Product Quality", "Product Quality", "Customer Service"] (by decide)

/-- C6 amended: every result of `analyze_feedback` (remote path or local
fallback, over every backend behaviour, enumeration order, text and
rating) has a sentiment among the three labels and a de-duplicated topic
list of at most 3 entries, each entry being either a canonical taxonomy
name or the local path's `"General Feedback"` placeholder. -/
theorem claim_result_wellformed_amended (E : SetEnum) (svc key : String)
    (net : Except String RawAI) (text : String) (rating : Option ℤ) :
    (analyze_feedback E svc key net text rating).sentiment ∈
      valid_sentiments ∧
    (analyze_feedback E svc key net text rating).topics.Nodup ∧
    (analyze_feedback E svc key net text rating).topics.length ≤ 3 ∧
    ∀ t ∈ (analyze_feedback E svc key net text rating).topics,
      t ∈ canonicalTopicNames ∨ t = "General Feedback" := by
  cases hb : (!pyTruthy text || !pyTruthy (pyStrip text)) with
  | true =>
    rw [analyze_feedback_blank _ _ _ _ _ _ hb]
    exact ⟨by simp [valid_sentiments], by simp, by simp, by simp⟩
  | false =>
    rw [analyze_feedback_nonblank _ _ _ _ _ _ hb]
    have hwf : ∀ st : AIResult × Option String,
        (st.1.topics.Nodup ∧ st.1.topics.length ≤ 3 ∧
         ∀ t ∈ st.1.topics,
           t ∈ canonicalTopicNames ∨ t = "General Feedback") →
        (af_finalize svc rating st).sentiment ∈ valid_sentiments ∧
        (af_finalize svc rating st).topics.Nodup ∧
        (af_finalize svc rating st).topics.length ≤ 3 ∧
        ∀ t ∈ (af_finalize svc rating st).topics,
          t ∈ canonicalTopicNames ∨ t = "General Feedback" := by
      intro st hst
      obtain ⟨hn, hl, hm⟩ := hst
      rw [af_finalize_topics]
      exact ⟨af_finalize_sentiment_valid _ _ _, hn, hl, hm⟩
    apply hwf
    cases hA : (if svc = "claude" then analyze_with_claude E key net text
        else if svc = "openai" then analyze_with_openai E key net text
        else .ok (analyze_local E text rating)) with
    | error e =>
      obtain ⟨-, hn, hl, hm, -, -⟩ := analyze_local_wf E text rating
      exact ⟨hn, hl, hm⟩
    | ok v =>
      by_cases h1 : svc = "claude"
      · rw [if_pos h1] at hA
        obtain ⟨-, hn, hl, hm, -, -⟩ := analyze_with_claude_ok hA
        exact ⟨hn, hl, fun t ht => Or.inl (hm t ht)⟩
      · rw [if_neg h1] at hA
        by_cases h2 : svc = "openai"
        · rw [if_pos h2] at hA
          obtain ⟨-, hn, hl, hm, -, -⟩ := analyze_with_openai_ok hA
          exact ⟨hn, hl, fun t ht => Or.inl (hm t ht)⟩
        · rw [if_neg h2] at hA
          cases hA
          obtain ⟨-, hn, hl, hm, -, -⟩ := analyze_local_wf E text rating
          exact ⟨hn, hl, hm⟩

/-- C6 counterexample: on a text with no topic keywords and no remote
backend, the local path returns the topic list
`["General Feedback"]`, and `"General Feedback"` is not a canonical
taxonomy name — refuting the claim that every result's topics contain
only canonical topic names. -/
theorem claim_result_topics_cex :
    "General Feedback" ∈
      (analyze_feedback sortEnum "local" "" (.error "net") "zzz"
          none).topics ∧
    "General Feedback" ∉ canonicalTopicNames := by
  constructor
  · rw [analyze_feedback_local_svc _ _ _ _ _ _ (by decide) (by decide)
        (by decide), af_finalize_topics]
    show "General Feedback" ∈ (analyze_local sortEnum "zzz" none).topics
    have hz : (analyze_local sortEnum "zzz" none).topics =
        ["General Feedback"] := by
      simp only [analyze_local]
      rw [if_neg (by decide)]
      show local_topics sortEnum (pyLower "zzz") = ["General Feedback"]
      have hd : detected_topics (pyLower "zzz") = [] := by decide
      have hnt : normalize_topics sortEnum ([] : List String) = [] := by
        show sortEnum.f (normalizedSet []) = []
        exact SetEnum.f_empty sortEnum
      simp [local_topics, hd, hnt]
    rw [hz]
    exact List.mem_singleton.mpr rfl
  · decide


theorem bool_neg {b : Bool} (h : b = false) : ¬(b = true) := by
  rw [h]
  exact Bool.false_ne_true

/-- The per-signal scoring as the specification sentence states it
(modelled from the spec's words, for comparison with the source's
`indicator_score`): full weight on exact match, 0.7 of the weight when
the signal string contains the column name, 0.5 when the column name
contains the signal, both fractional cases only for columns longer than
3 characters. -/
def indicator_score_spec (cols : List String) (indicator : String)
    (weight : ℕ) : ℚ :=
  if cols.contains indicator then (weight : ℚ)
  else if cols.any (fun col => decide (3 < col.length) && pyIn col indicator)
  then (weight : ℚ) * (7 / 10)
  else if cols.any (fun col => decide (3 < col.length) && pyIn indicator col)
  then (weight : ℚ) * (1 / 2)
  else 0

/-- C5 counterexample: for the Amazon signal `star_rating` (weight 5) and
the single column `rating`, the signal contains the column name, so the
claim prescribes 0.7 of the weight; the code's third branch
(`col in indicator`) gives 0.5 of the weight instead — the two fractional
directions in the claim are swapped relative to the code. -/
theorem claim_signal_scoring_cex :
    indicator_score ["rating"] "star_rating" 5 = 5 * (1 / 2 : ℚ) ∧
    indicator_score_spec ["rating"] "star_rating" 5 = 5 * (7 / 10 : ℚ) ∧
    indicator_score ["rating"] "star_rating" 5 ≠
      indicator_score_spec ["rating"] "star_rating" 5 := by
  have h1 : indicator_score ["rating"] "star_rating" 5 = 5 * (1 / 2 : ℚ) := by
    rw [indicator_score, if_neg (by decide), if_neg (by decide),
        if_pos (by decide)]
    norm_num
  have h2 : indicator_score_spec ["rating"] "star_rating" 5 =
      5 * (7 / 10 : ℚ) := by
    rw [indicator_score_spec, if_neg (by decide), if_pos (by decide)]
    norm_num
  refine ⟨h1, h2, ?_⟩
  rw [h1, h2]
  norm_num

/-- C5 amended: exact match scores the full weight; a column containing
the signal scores 0.7 of the weight (with no length condition — every
indicator in the table is longer than 3 characters, so a containing
column is too); a column of length > 3 contained in the signal scores 0.5
of the weight; otherwise a signal scores nothing. -/
theorem claim_signal_scoring_amended (cols : List String)
    (indicator : String) (weight : ℕ) :
    (cols.contains indicator = true →
       indicator_score cols indicator weight = weight) ∧
    (cols.contains indicator = false →
       cols.any (fun col => pyIn indicator col) = true →
       indicator_score cols indicator weight = weight * (7 / 10)) ∧
    (cols.contains indicator = false →
       cols.any (fun col => pyIn indicator col) = false →
       cols.any (fun col => decide (3 < col.length) && pyIn col indicator) =
         true →
       indicator_score cols indicator weight = weight * (1 / 2)) ∧
    (cols.contains indicator = false →
       cols.any (fun col => pyIn indicator col) = false →
       cols.any (fun col => decide (3 < col.length) && pyIn col indicator) =
         false →
       indicator_score cols indicator weight = 0) := by
  refine ⟨?_, ?_, ?_, ?_⟩
  · intro h
    rw [indicator_score, if_pos h]
  · intro h1 h2
    rw [indicator_score, if_neg (bool_neg h1), if_pos h2]
  · intro h1 h2 h3
    rw [indicator_score, if_neg (bool_neg h1), if_neg (bool_neg h2),
        if_pos h3]
  · intro h1 h2 h3
    rw [indicator_score, if_neg (bool_neg h1), if_neg (bool_neg h2),
        if_neg (bool_neg h3)]

/-- Witness for the amended C5: concrete instances of all four branches. -/
theorem claim_signal_scoring_amended_witness :
    indicator_score ["review_body"] "review_body" 10 = 10 ∧
    indicator_score ["star_rating_x"] "star_rating" 5 = 5 * (7 / 10) ∧
    indicator_score ["rating"] "star_rating" 5 = 5 * (1 / 2) ∧
    indicator_score ["zzz"] "star_rating" 5 = 0 :=
  ⟨(claim_signal_scoring_amended ["review_body"] "review_body" 10).1
     (by decide),
   (claim_signal_scoring_amended ["star_rating_x"] "star_rating" 5).2.1
     (by decide) (by decide),
   (claim_signal_scoring_amended ["rating"] "star_rating" 5).2.2.1
     (by decide) (by decide) (by decide),
   (claim_signal_scoring_amended ["zzz"] "star_rating" 5).2.2.2
     (by decide) (by decide) (by decide)⟩

/-- C4: the threshold policy holds (a best score below 3 yields
`generic`), and the empty column list yields `generic`; but single-column
inputs do not always yield `generic` — the exact matches of `rating`
(tripadvisor 5, facebook 4, yelp 3) put tripadvisor at the threshold, so
`detect_platform [rating]` returns `tripadvisor`, contradicting the
repository's own test (`test_platform_detection_edge_cases`) and the
spec; likewise scenario F's columns `[name, rating, comment]` score
google at 9.0 (reverse matches on `reviewer_display_name`,
`review_comment`, `star_rating`) and return `google`, not `generic`. -/
theorem claim_detect_generic_threshold :
    (∀ columns : List String,
       (∀ pl ∈ platform_indicators,
          platform_score (columns.map fun c => pyStrip (pyLower c)) pl.2 < 3) →
       detect_platform columns = "generic") ∧
    detect_platform [] = "generic" ∧
    detect_platform ["rating"] = "tripadvisor" ∧
    detect_platform ["name", "rating", "comment"] = "google" := by
  refine ⟨detect_platform_generic_of_lt, ?_, ?_, ?_⟩ <;>
    rw [detect_platform_eq_deci] <;> decide

/-- Witness for C4: on a column list matching nothing, every platform
score is below 3 and detection returns `generic`. -/
theorem claim_detect_generic_threshold_witness :
    detect_platform ["zzz"] = "generic" :=
  claim_detect_generic_threshold.1 ["zzz"] (by
    intro pl hpl
    simp only [platform_indicators, List.mem_cons, List.not_mem_nil,
      or_false] at hpl
    rcases hpl with h | h | h | h | h <;> subst h <;>
      rw [platform_score_eq_deci, deci_lt_three] <;> decide)

theorem foldl_max_bound :
    ∀ (vs : List ℚ) (v a : ℚ), a ∈ v :: vs → a ≤ vs.foldl max v := by
  intro vs
  induction vs with
  | nil =>
    intro v a ha
    rw [List.mem_singleton] at ha
    exact ha.le
  | cons w t ih =>
    intro v a ha
    rw [List.foldl_cons]
    rcases List.mem_cons.mp ha with h | h
    · subst h
      exact le_trans (le_max_left a w)
        (ih (max a w) (max a w) (List.mem_cons_self _ _))
    · rcases List.mem_cons.mp h with h2 | h2
      · subst h2
        exact le_trans (le_max_right v a)
          (ih (max v a) (max v a) (List.mem_cons_self _ _))
      · exact ih (max v w) a (List.mem_cons_of_mem _ h2)

theorem foldl_min_bound :
    ∀ (vs : List ℚ) (v a : ℚ), a ∈ v :: vs → vs.foldl min v ≤ a := by
  intro vs
  induction vs with
  | nil =>
    intro v a ha
    rw [List.mem_singleton] at ha
    exact ha.ge
  | cons w t ih =>
    intro v a ha
    rw [List.foldl_cons]
    rcases List.mem_cons.mp ha with h | h
    · subst h
      exact le_trans
        (ih (min a w) (min a w) (List.mem_cons_self _ _)) (min_le_left a w)
    · rcases List.mem_cons.mp h with h2 | h2
      · subst h2
        exact le_trans
          (ih (min v a) (min v a) (List.mem_cons_self _ _)) (min_le_right v a)
      · exact ih (min v w) a (List.mem_cons_of_mem _ h2)

theorem seriesMax_bound {l : List ℚ} {M : ℚ} (h : seriesMax l = some M) :
    ∀ a ∈ l, a ≤ M := by
  cases l with
  | nil => simp [seriesMax] at h
  | cons v vs =>
    intro a ha
    simp only [seriesMax, Option.some.injEq] at h
    rw [← h]
    exact foldl_max_bound vs v a ha

theorem seriesMin_bound {l : List ℚ} {m : ℚ} (h : seriesMin l = some m) :
    ∀ a ∈ l, m ≤ a := by
  cases l with
  | nil => simp [seriesMin] at h
  | cons v vs =>
    intro a ha
    simp only [seriesMin, Option.some.injEq] at h
    rw [← h]
    exact foldl_min_bound vs v a ha

theorem seriesMax_eq_none {l : List ℚ} (h : seriesMax l = none) : l = [] := by
  cases l with
  | nil => rfl
  | cons v vs => simp [seriesMax] at h

theorem seriesMin_eq_none {l : List ℚ} (h : seriesMin l = none) : l = [] := by
  cases l with
  | nil => rfl
  | cons v vs => simp [seriesMin] at h

theorem roundHalfEven_cases (q : ℚ) :
    roundHalfEven q = ⌊q⌋ ∨
    (roundHalfEven q = ⌊q⌋ + 1 ∧ (⌊q⌋ : ℚ) < q) := by
  simp only [roundHalfEven]
  split
  · exact Or.inl rfl
  · next h1 =>
    have hpos : (⌊q⌋ : ℚ) < q := by
      have h2 : (1 : ℚ) / 2 ≤ q - ⌊q⌋ := not_lt.mp h1
      linarith
    split
    · exact Or.inr ⟨rfl, hpos⟩
    · split
      · exact Or.inl rfl
      · exact Or.inr ⟨rfl, hpos⟩

theorem roundHalfEven_bounds {q : ℚ} (h1 : 1 ≤ q) (h5 : q ≤ 5) :
    1 ≤ (roundHalfEven q : ℚ) ∧ (roundHalfEven q : ℚ) ≤ 5 := by
  have hfl : (1 : ℤ) ≤ ⌊q⌋ := by
    rw [Int.le_floor]
    exact_mod_cast h1
  have hfl' : (1 : ℚ) ≤ (⌊q⌋ : ℚ) := by exact_mod_cast hfl
  have hfq : (⌊q⌋ : ℚ) ≤ q := Int.floor_le q
  rcases roundHalfEven_cases q with h | ⟨h, hlt⟩
  · rw [h]
    exact ⟨hfl', by linarith⟩
  · rw [h]
    push_cast
    constructor
    · linarith
    · have h45 : (⌊q⌋ : ℚ) < 5 := lt_of_lt_of_le hlt h5
      have hz : ⌊q⌋ < 5 := by exact_mod_cast h45
      have hz1 : ⌊q⌋ + 1 ≤ 5 := hz
      have : ((⌊q⌋ + 1 : ℤ) : ℚ) ≤ 5 := by exact_mod_cast hz1
      push_cast at this
      linarith

theorem clip15_mem (q : ℚ) : 1 ≤ clip15 q ∧ clip15 q ≤ 5 := by
  unfold clip15
  exact ⟨le_min (by norm_num) (le_max_left 1 q), min_le_left 5 _⟩

theorem normalize_rating_shape (rs : List RawCell) :
    ∃ f : ℚ → ℚ,
      normalize_rating rs = (numericCells rs).map (Option.map f) := by
  rcases hM : seriesMax (ratingVals rs) with _ | M <;>
    rcases hm : seriesMin (ratingVals rs) with _ | m <;>
    simp only [normalize_rating, hM, hm]
  · exact ⟨id, by simp [Option.map_id]⟩
  · exact ⟨id, by simp [Option.map_id]⟩
  · exact ⟨id, by simp [Option.map_id]⟩
  · split
    · exact ⟨_, rfl⟩
    · split
      · exact ⟨_, rfl⟩
      · split
        · exact ⟨_, rfl⟩
        · exact ⟨_, rfl⟩

theorem normalize_rating_missing (rs : List RawCell) (i : ℕ)
    (h : (numericCells rs)[i]? = some none) :
    (normalize_rating rs)[i]? = some none := by
  obtain ⟨f, hf⟩ := normalize_rating_shape rs
  rw [hf, List.getElem?_map, h]
  rfl

theorem normalize_rating_range (rs : List RawCell) (i : ℕ) (q : ℚ)
    (h : (normalize_rating rs)[i]? = some (some q)) : 1 ≤ q ∧ q ≤ 5 := by
  rcases hM : seriesMax (ratingVals rs) with _ | M
  · simp only [normalize_rating, hM] at h
    exfalso
    have hq : q ∈ ratingVals rs :=
      List.mem_filterMap.mpr ⟨some q, List.getElem?_mem h, rfl⟩
    rw [seriesMax_eq_none hM] at hq
    exact absurd hq (List.not_mem_nil q)
  · rcases hm : seriesMin (ratingVals rs) with _ | m
    · simp only [normalize_rating, hM, hm] at h
      exfalso
      have hq : q ∈ ratingVals rs :=
        List.mem_filterMap.mpr ⟨some q, List.getElem?_mem h, rfl⟩
      rw [seriesMin_eq_none hm] at hq
      exact absurd hq (List.not_mem_nil q)
    · simp only [normalize_rating, hM, hm] at h
      split at h
      · next hc =>
        rw [List.getElem?_map] at h
        obtain ⟨o, ho, hoq⟩ := Option.map_eq_some'.mp h
        obtain ⟨q0, hq0, hfq⟩ := Option.map_eq_some'.mp hoq
        subst hq0
        have hq0mem : q0 ∈ ratingVals rs :=
          List.mem_filterMap.mpr ⟨some q0, List.getElem?_mem ho, rfl⟩
        have hub : q0 ≤ M := seriesMax_bound hM q0 hq0mem
        have hlb : m ≤ q0 := seriesMin_bound hm q0 hq0mem
        rw [← hfq]
        exact roundHalfEven_bounds (le_trans hc.2 hlb) (le_trans hub hc.1)
      · split at h
        · rw [List.getElem?_map] at h
          obtain ⟨o, ho, hoq⟩ := Option.map_eq_some'.mp h
          obtain ⟨q0, hq0, hfq⟩ := Option.map_eq_some'.mp hoq
          rw [← hfq]
          exact clip15_mem _
        · split at h
          · rw [List.getElem?_map] at h
            obtain ⟨o, ho, hoq⟩ := Option.map_eq_some'.mp h
            obtain ⟨q0, hq0, hfq⟩ := Option.map_eq_some'.mp hoq
            rw [← hfq]
            exact clip15_mem _
          · rw [List.getElem?_map] at h
            obtain ⟨o, ho, hoq⟩ := Option.map_eq_some'.mp h
            obtain ⟨q0, hq0, hfq⟩ := Option.map_eq_some'.mp hoq
            rw [← hfq]
            exact clip15_mem _

/-- C3: the Rating Normalizer coerces non-numeric cells to missing and
keeps missing cells missing through every branch; with observed maximum
≤ 5 and minimum ≥ 1 it rounds and passes through; otherwise with maximum
≤ 10 it halves, rounds and clips; otherwise with maximum ≤ 100 it divides
by 20, rounds and clips; otherwise it passes values through clipped; all
non-missing outputs lie in [1, 5]; and the series [2,4,6,8,10] normalizes
to [1,2,3,4,5].  (Rounding is pandas' round-half-to-even.) -/
theorem claim_rating_normalizer :
    (∀ (rs : List RawCell) (i : ℕ),
       rs[i]? = some RawCell.nonNumeric ∨ rs[i]? = some RawCell.missing →
       (normalize_rating rs)[i]? = some none) ∧
    (∀ (rs : List RawCell) (M m : ℚ),
       seriesMax (ratingVals rs) = some M →
       seriesMin (ratingVals rs) = some m → M ≤ 5 → 1 ≤ m →
       normalize_rating rs =
         (numericCells rs).map (Option.map fun q => (roundHalfEven q : ℚ))) ∧
    (∀ (rs : List RawCell) (M m : ℚ),
       seriesMax (ratingVals rs) = some M →
       seriesMin (ratingVals rs) = some m →
       ¬(M ≤ 5 ∧ 1 ≤ m) → M ≤ 10 →
       normalize_rating rs =
         (numericCells rs).map
           (Option.map fun q => clip15 (roundHalfEven (q / 2) : ℚ))) ∧
    (∀ (rs : List RawCell) (M m : ℚ),
       seriesMax (ratingVals rs) = some M →
       seriesMin (ratingVals rs) = some m →
       ¬(M ≤ 5 ∧ 1 ≤ m) → ¬M ≤ 10 → M ≤ 100 →
       normalize_rating rs =
         (numericCells rs).map
           (Option.map fun q => clip15 (roundHalfEven (q / 20) : ℚ))) ∧
    (∀ (rs : List RawCell) (M m : ℚ),
       seriesMax (ratingVals rs) = some M →
       seriesMin (ratingVals rs) = some m →
       ¬(M ≤ 5 ∧ 1 ≤ m) → ¬M ≤ 10 → ¬M ≤ 100 →
       normalize_rating rs = (numericCells rs).map (Option.map clip15)) ∧
    (∀ (rs : List RawCell) (i : ℕ) (q : ℚ),
       (normalize_rating rs)[i]? = some (some q) → 1 ≤ q ∧ q ≤ 5) ∧
    normalize_rating ([2, 4, 6, 8, 10].map RawCell.numeric) =
      [some 1, some 2, some 3, some 4, some 5] := by
  refine ⟨?_, ?_, ?_, ?_, ?_, normalize_rating_range, ?_⟩
  · intro rs i h
    apply normalize_rating_missing
    rw [numericCells, List.getElem?_map]
    rcases h with h | h <;> rw [h] <;> rfl
  · intro rs M m hM hm h5 h1
    simp only [normalize_rating, hM, hm]
    rw [if_pos ⟨h5, h1⟩]
  · intro rs M m hM hm hn h10
    simp only [normalize_rating, hM, hm]
    rw [if_neg hn, if_pos h10]
  · intro rs M m hM hm hn h10 h100
    simp only [normalize_rating, hM, hm]
    rw [if_neg hn, if_neg h10, if_pos h100]
  · intro rs M m hM hm hn h10 h100
    simp only [normalize_rating, hM, hm]
    rw [if_neg hn, if_neg h10, if_neg h100]
  · have hM : seriesMax (ratingVals ([2, 4, 6, 8, 10].map RawCell.numeric)) =
        some 10 := by
      show seriesMax [(2 : ℚ), 4, 6, 8, 10] = some 10
      simp only [seriesMax, List.foldl_cons, List.foldl_nil,
        Option.some.injEq]
      norm_num [max_def]
    have hm : seriesMin (ratingVals ([2, 4, 6, 8, 10].map RawCell.numeric)) =
        some 2 := by
      show seriesMin [(2 : ℚ), 4, 6, 8, 10] = some 2
      simp only [seriesMin, List.foldl_cons, List.foldl_nil,
        Option.some.injEq]
      norm_num [min_def]
    simp only [normalize_rating, hM, hm]
    rw [if_neg (by norm_num), if_pos (by norm_num)]
    show [(2 : ℚ), 4, 6, 8, 10].map
        (fun q => some (clip15 (roundHalfEven (q / 2) : ℚ))) = _
    simp only [List.map_cons, List.map_nil]
    norm_num [roundHalfEven, clip15, max_def, min_def]

/-- Witness for C3: a non-numeric cell becomes missing, and a singleton
in-range series takes the rounding pass-through branch. -/
theorem claim_rating_normalizer_witness :
    (normalize_rating [RawCell.nonNumeric])[0]? = some none ∧
    normalize_rating [RawCell.numeric 3] =
      (numericCells [RawCell.numeric 3]).map
        (Option.map fun q => (roundHalfEven q : ℚ)) :=
  ⟨claim_rating_normalizer.1 [RawCell.nonNumeric] 0 (Or.inl rfl),
   claim_rating_normalizer.2.1 [RawCell.numeric 3] 3 3 rfl rfl
     (by norm_num) (by norm_num)⟩

theorem vc_rule1_length_le (rows : List Row) :
    (vc_rule1 rows).length ≤ rows.length :=
  List.length_filter_le _ _

theorem vc_rule2_length_le (rows : List Row) :
    (vc_rule2 rows).length ≤ rows.length :=
  le_trans (List.length_filter_le _ _) (le_of_eq (List.length_map _ _))

theorem vc_rule3_length_le (rows : List Row) :
    (vc_rule3 rows).length ≤ rows.length :=
  le_trans (List.length_filter_le _ _) (le_of_eq (List.length_map _ _))

theorem vc_rule4_length (sch : Schema) (rows : List Row) :
    (vc_rule4 sch rows).length = rows.length := by
  simp only [vc_rule4]
  split
  · exact List.length_map _ _
  · rfl

theorem vc_rule5_length (sch : Schema) (rows : List Row) :
    (vc_rule5 sch rows).length = rows.length := by
  simp only [vc_rule5]
  split
  · exact List.length_map _ _
  · rfl

theorem validate_keyerror {t : Table}
    (h : (t.schema.hasComment && t.schema.hasRating) = false) :
    validate_and_clean t =
      .error "KeyError: dropna subset columns not in index" := by
  simp [validate_and_clean, h]

/-- C9: whenever `validate_and_clean` returns (that is, both subset
columns exist), the statistics satisfy: final count ≤ original count,
`success_rate = final/original` for a non-empty input, `success_rate = 0`
for an empty input (no division error), and `success_rate` lies in
[0, 1]. -/
theorem claim_success_rate (t : Table) (out : Table × ValidationStats)
    (h : validate_and_clean t = .ok out) :
    out.2.final_count ≤ out.2.original_count ∧
    (out.2.original_count > 0 →
      out.2.success_rate =
        (out.2.final_count : ℚ) / out.2.original_count) ∧
    (out.2.original_count = 0 → out.2.success_rate = 0) ∧
    0 ≤ out.2.success_rate ∧ out.2.success_rate ≤ 1 := by
  simp only [validate_and_clean] at h
  split at h
  · cases h
  · cases h
    have hle : (vc_rule5 t.schema (vc_rule4 t.schema
        (vc_rule3 (vc_rule2 (vc_rule1 t.rows))))).length ≤
        t.rows.length := by
      rw [vc_rule5_length, vc_rule4_length]
      exact le_trans (vc_rule3_length_le _)
        (le_trans (vc_rule2_length_le _) (vc_rule1_length_le _))
    refine ⟨hle, ?_, ?_, ?_, ?_⟩
    · intro hpos
      exact if_pos hpos
    · intro hzero
      have hz : t.rows.length = 0 := hzero
      exact if_neg (by omega)
    · split
      · positivity
      · norm_num
    · split
      · next hpos =>
        rw [div_le_one (by exact_mod_cast hpos)]
        exact_mod_cast hle
      · norm_num

/-- Witness for C9: a concrete two-row table (one surviving row). -/
theorem claim_success_rate_witness :
    ∃ out : Table × ValidationStats,
      validate_and_clean
          { schema := ⟨true, true, false, false, false⟩,
            rows := [{ comment := some "good", rating := .numeric 5 }, {}] } =
        .ok out ∧
      out.2.final_count ≤ out.2.original_count ∧
      0 ≤ out.2.success_rate ∧ out.2.success_rate ≤ 1 := by
  refine ⟨_, rfl, ?_⟩
  have h := claim_success_rate
    { schema := ⟨true, true, false, false, false⟩,
      rows := [{ comment := some "good", rating := .numeric 5 }, {}] } _ rfl
  exact ⟨h.1, h.2.2.2⟩

/-- C10: `validate_and_clean` requires both the `comment` and the
`rating` canonical columns: if either is absent it raises (the `KeyError`
of the first drop rule) instead of returning records and statistics; and
since `map_columns` omits a canonical column whenever no source column
matched (or matched only a falsy name), a mapped table whose source had
no rating-like and no comment-like columns makes validation raise for
every row content. -/
theorem claim_validate_requires_columns :
    (∀ t : Table,
       t.schema.hasComment = false ∨ t.schema.hasRating = false →
       validate_and_clean t =
         .error "KeyError: dropna subset columns not in index") ∧
    (∀ (columns : List String) (platform : String) (mp : FieldVariants)
       (sch : Schema),
       COLUMN_MAPPINGS platform = some mp →
       truthyCol (find_column (columns.map fun c => (c, pyStrip (pyLower c)))
         mp.rating) = false →
       truthyCol (find_column (columns.map fun c => (c, pyStrip (pyLower c)))
         mp.comment) = false →
       map_columns_schema columns platform = .ok sch →
       sch.hasRating = false ∧ sch.hasComment = false ∧
       ∀ rows : List Row,
         validate_and_clean ⟨sch, rows⟩ =
           .error "KeyError: dropna subset columns not in index") := by
  constructor
  · intro t ht
    apply validate_keyerror
    rcases ht with h | h <;> simp [h]
  · intro columns platform mp sch hmap hr hc hok
    simp only [map_columns_schema, hmap] at hok
    split at hok
    · cases hok
    · cases hok
      refine ⟨hr, hc, fun rows => validate_keyerror ?_⟩
      simp [hc]

/-- Witness for C10: a table with only a date-like column maps to a
schema without rating and comment, and validation then raises. -/
theorem claim_validate_requires_columns_witness :
    map_columns_schema ["date"] "generic" =
      .ok ⟨false, false, true, false, true⟩ ∧
    validate_and_clean
        { schema := ⟨false, false, true, false, true⟩, rows := [] } =
      .error "KeyError: dropna subset columns not in index" := by
  refine ⟨rfl, ?_⟩
  exact (claim_validate_requires_columns.2 ["date"] "generic"
    ⟨["rating", "stars", "star_rating", "score"],
     ["comment", "review", "text", "feedback", "review_text",
      "feedback_text"],
     ["date", "created_date", "review_date", "timestamp"],
     ["name", "customer_name", "reviewer_name", "user_name"],
     ["source", "platform", "origin"]⟩
    ⟨false, false, true, false, true⟩ rfl (by decide) (by decide)
    rfl).2.2 []

/-- Witness for the amended C6 at a concrete call. -/
theorem claim_result_wellformed_amended_witness :
    (analyze_feedback sortEnum "local" "" (.error "") "hi" none).sentiment ∈
      valid_sentiments ∧
    (analyze_feedback sortEnum "local" "" (.error "") "hi" none).topics.Nodup ∧
    (analyze_feedback sortEnum "local" "" (.error "") "hi"
        none).topics.length ≤ 3 ∧
    ∀ t ∈ (analyze_feedback sortEnum "local" "" (.error "") "hi" none).topics,
      t ∈ canonicalTopicNames ∨ t = "General Feedback" :=
  claim_result_wellformed_amended sortEnum "local" "" (.error "") "hi" none

end VerbatimAI
